import Mathlib

/-!
Verification of the Smart-Production-Scheduler core against its
natural-language specification.

Shallow embedding conventions:
* Dates are modelled as integers (day numbers).  The source compares
  `YYYY-MM-DD` strings lexicographically and adds `timedelta(days=i)`;
  both operations agree with integer comparison / addition on day numbers.
* DataFrame rows become lists of structures; pandas `cumsum`, `filter`,
  `sum`, `iloc[0]` become list recursion, `List.filter`, list sums and
  `List.find?`.
* Python `//` and `%` on integers (floor division) are `Int.ediv` /
  `Int.emod`, which coincide with Python semantics for positive divisors.
* The float threshold `total >= operation_qty * 0.9` of `main_engine.py`
  is modelled exactly as the rational inequality `9 * opq ≤ 10 * total`.
* The `"YYYY-MM-DD_line"` destination string of a proposed move is
  modelled as an already-split `Option (Int × String)`; `none` stands for
  a string the split-and-parse step of `step6_validate_ai_strategy`
  rejects as malformed.
-/

/-! ## Slack analyzer (`functions_part1.step2_calculate_cumulative_slack`)

One row of a product's full time-ordered series
(`plan_date`, `qty_0차` = due, `qty_1차` = produced). -/

structure SRow where
  date : Int
  qty0 : Int
  qty1 : Int
deriving DecidableEq, Repr

/-- Running cumulative sums along the series, mirroring
`p_series['cumsum_0차'] = qty_0차.cumsum()` and the `qty_1차` analogue:
each row is emitted together with the cumulative sums up to and
including it. -/
def cumsRows : Int → Int → List SRow → List (Int × Int × Int)
  | _, _, [] => []
  | a0, a1, r :: rs =>
      (r.date, a0 + r.qty0, a1 + r.qty1) :: cumsRows (a0 + r.qty0) (a1 + r.qty1) rs

/-- First row of the cumulated series carrying the given date
(`today_data = p_series[p_series['plan_date'] == date]; today_data.iloc[0]`). -/
def findDate (d : Int) : List (Int × Int × Int) → Option (Int × Int)
  | [] => none
  | (dt, c0, c1) :: rest => if dt = d then some (c0, c1) else findDate d rest

/-- `p_series[p_series['plan_date'] > date]['qty_0차'].sum()` — due strictly after `d`. -/
def sumDueAfter (s : List SRow) (d : Int) : Int :=
  ((s.filter fun r => decide (d < r.date)).map SRow.qty0).sum

/-- `p_series[p_series['plan_date'] > date]['qty_1차'].sum()` — produced strictly after `d`. -/
def sumProdAfter (s : List SRow) (d : Int) : Int :=
  ((s.filter fun r => decide (d < r.date)).map SRow.qty1).sum

/-- The `max_movable` computation of `step2_calculate_cumulative_slack`
for one item: `s` is the product's whole series, `d` the target date,
`itemQty` the item's `qty_1차` on the target date/line.  `none` models the
`continue` taken when the series has no row at the target date. -/
def step2_max_movable (s : List SRow) (d : Int) (itemQty : Int) : Option Int :=
  match findDate d (cumsRows 0 0 s) with
  | none => none
  | some (c0, c1) =>
      let future_slack := sumProdAfter s d - sumDueAfter s d
      some (if 0 < c1 - c0 then c1 - c0
            else if 0 ≤ future_slack then itemQty
            else max 0 (itemQty + future_slack))

/-- Maximum of a list of integers (`max(due_dates)` in the source). -/
def listMax : List Int → Option Int
  | [] => none
  | x :: xs => some (match listMax xs with | none => x | some m => max x m)

/-- The `buffer_days` computation of `step2_calculate_cumulative_slack`:
the dates with positive due quantity are collected over the whole series,
their maximum is `last_due`, and `buffer_days = last_due - target_date`
(in days); when no positive due quantity exists at all the sentinel 999
is used. -/
def step2_buffer_days (s : List SRow) (d : Int) : Int :=
  match listMax ((s.filter fun r => decide (0 < r.qty0)).map SRow.date) with
  | some ld => ld - d
  | none => 999

/-! Spec-side characterizations (from the spec's words, for comparison):
cumulative due/produced up to and including the target date. -/

/-- Spec-side: cumulative due quantity up to and including date `d`. -/
def cumDueUpTo (s : List SRow) (d : Int) : Int :=
  ((s.filter fun r => decide (r.date ≤ d)).map SRow.qty0).sum

/-- Spec-side: cumulative produced quantity up to and including date `d`. -/
def cumProdUpTo (s : List SRow) (d : Int) : Int :=
  ((s.filter fun r => decide (r.date ≤ d)).map SRow.qty1).sum

lemma filter_le_eq_nil_of_gt {d : Int} {rs : List SRow}
    (h : ∀ r ∈ rs, d < r.date) :
    rs.filter (fun r => decide (r.date ≤ d)) = [] := by
  induction rs with
  | nil => rfl
  | cons a t ih =>
      have ha := h a (by simp)
      simp only [List.filter_cons]
      rw [if_neg (by simp; omega)]
      exact ih fun r hr => h r (by simp [hr])

lemma findDate_cums (d : Int) (s : List SRow) (a0 a1 : Int)
    (hs : List.Pairwise (fun a b : SRow => a.date < b.date) s)
    (hd : ∃ r ∈ s, r.date = d) :
    findDate d (cumsRows a0 a1 s) = some (a0 + cumDueUpTo s d, a1 + cumProdUpTo s d) := by
  induction s generalizing a0 a1 with
  | nil => simp at hd
  | cons r rs ih =>
      rcases List.pairwise_cons.mp hs with ⟨hr, hrs⟩
      by_cases hdate : r.date = d
      · have hnil : rs.filter (fun x => decide (x.date ≤ d)) = [] :=
          filter_le_eq_nil_of_gt fun x hx => hdate ▸ hr x hx
        simp [cumsRows, findDate, hdate, cumDueUpTo, cumProdUpTo,
          List.filter_cons, hnil]
      · obtain ⟨x, hx, hxd⟩ := hd
        rcases List.mem_cons.mp hx with rfl | hx'
        · exact absurd hxd hdate
        · have hrd : r.date < d := hxd ▸ hr x hx'
          simp only [cumsRows, findDate, if_neg hdate]
          rw [ih (a0 + r.qty0) (a1 + r.qty1) hrs ⟨x, hx', hxd⟩]
          unfold cumDueUpTo cumProdUpTo
          simp only [List.filter_cons]
          rw [if_pos (by simp; omega)]
          simp only [List.map_cons, List.sum_cons, Option.some.injEq, Prod.mk.injEq]
          constructor <;> ring

/-- C1: for a product whose series is strictly time-ordered and contains a
row at the target date, `step2_calculate_cumulative_slack` computes
`max_movable` as: if cumulative produced minus cumulative due up to and
including the target date is positive, that difference; otherwise the full
target-date quantity when the future slack (produced minus due strictly
after the target date) is nonnegative, and `max 0 (targetQty + futureSlack)`
when it is negative. -/
theorem step2_slack_matches_spec (s : List SRow) (d itemQty : Int)
    (hs : List.Pairwise (fun a b : SRow => a.date < b.date) s)
    (hd : ∃ r ∈ s, r.date = d) :
    step2_max_movable s d itemQty =
      some (if 0 < cumProdUpTo s d - cumDueUpTo s d then
              cumProdUpTo s d - cumDueUpTo s d
            else if 0 ≤ sumProdAfter s d - sumDueAfter s d then itemQty
            else max 0 (itemQty + (sumProdAfter s d - sumDueAfter s d))) := by
  unfold step2_max_movable
  rw [findDate_cums d s 0 0 hs hd]
  simp

/-- Witness for C1: the spec's scenario — `cumProduced = 500`,
`cumDue = 500` at the target date, future produced exceeding future due by
200, a 150-unit same-day quantity — yields `max_movable = 150`. -/
theorem step2_slack_scenario :
    step2_max_movable [⟨0, 200, 350⟩, ⟨10, 300, 150⟩, ⟨20, 100, 300⟩] 10 150 = some 150 := by
  rw [step2_slack_matches_spec _ _ _ (by decide) ⟨⟨10, 300, 150⟩, by decide, rfl⟩]
  decide

lemma listMax_spec (l : List Int) (m : Int) (h : listMax l = some m) :
    m ∈ l ∧ ∀ x ∈ l, x ≤ m := by
  induction l generalizing m with
  | nil => simp [listMax] at h
  | cons a t ih =>
      simp only [listMax] at h
      cases ht : listMax t with
      | none =>
          rw [ht] at h
          cases t with
          | nil =>
              simp at h
              subst h; simp
          | cons b u => simp [listMax] at ht
      | some mt =>
          rw [ht] at h
          obtain ⟨hmem, hub⟩ := ih mt ht
          have hm : m = max a mt := by simpa using h.symm
          subst hm
          constructor
          · rcases le_total a mt with hle | hle
            · rw [max_eq_right hle]
              exact List.mem_cons_of_mem _ hmem
            · rw [max_eq_left hle]
              exact List.mem_cons_self _ _
          · intro x hx
            rcases List.mem_cons.mp hx with rfl | hx'
            · exact le_max_left _ _
            · exact le_trans (hub x hx') (le_max_right _ _)

/-- Counterexample for C9: a product whose only positive due quantity lies
strictly before the target date has no future due dates, yet
`buffer_days` is the (negative) signed distance to that past due date,
not the sentinel 999. -/
theorem buffer_days_past_due_cex :
    (∀ r ∈ [(⟨0, 5, 0⟩ : SRow), ⟨10, 0, 100⟩], 10 < r.date → r.qty0 ≤ 0) ∧
    step2_buffer_days [⟨0, 5, 0⟩, ⟨10, 0, 100⟩] 10 = -10 ∧
    step2_buffer_days [⟨0, 5, 0⟩, ⟨10, 0, 100⟩] 10 ≠ 999 := by
  refine ⟨by decide, by decide, by decide⟩

/-- C9 (amended): `buffer_days` equals the signed number of days from the
target date to the product's last due date with positive due quantity
taken over the whole series, and defaults to the sentinel 999 exactly when
the product has no positive due quantity on any date. -/
theorem buffer_days_characterization (s : List SRow) (d : Int) :
    ((∀ r ∈ s, r.qty0 ≤ 0) → step2_buffer_days s d = 999) ∧
    (∀ r0 ∈ s, 0 < r0.qty0 →
      ∃ ld, (∃ r ∈ s, 0 < r.qty0 ∧ r.date = ld) ∧
            (∀ r ∈ s, 0 < r.qty0 → r.date ≤ ld) ∧
            step2_buffer_days s d = ld - d) := by
  constructor
  · intro h
    have : s.filter (fun r => decide (0 < r.qty0)) = [] := by
      rw [List.filter_eq_nil_iff]
      intro r hr
      simpa using not_lt.mpr (h r hr)
    simp [step2_buffer_days, this, listMax]
  · intro r0 hr0 hpos
    have hmem : r0.date ∈ (s.filter fun r => decide (0 < r.qty0)).map SRow.date := by
      simp only [List.mem_map, List.mem_filter]
      exact ⟨r0, ⟨hr0, by simpa using hpos⟩, rfl⟩
    cases hmax : listMax ((s.filter fun r => decide (0 < r.qty0)).map SRow.date) with
    | none =>
        exfalso
        rcases List.exists_mem_of_ne_nil _ (List.ne_nil_of_mem hmem) with ⟨y, hy⟩
        cases h' : (s.filter fun r => decide (0 < r.qty0)).map SRow.date with
        | nil => rw [h'] at hmem; simp at hmem
        | cons a t => rw [h'] at hmax; simp [listMax] at hmax
    | some ld =>
        obtain ⟨hin, hub⟩ := listMax_spec _ _ hmax
        refine ⟨ld, ?_, ?_, ?_⟩
        · simp only [List.mem_map, List.mem_filter] at hin
          obtain ⟨r, ⟨hr, hq⟩, hd⟩ := hin
          exact ⟨r, hr, by simpa using hq, hd⟩
        · intro r hr hq
          exact hub r.date (by
            simp only [List.mem_map, List.mem_filter]
            exact ⟨r, ⟨hr, by simpa using hq⟩, rfl⟩)
        · simp [step2_buffer_days, hmax]

/-- Witness for C9: a series with positive due quantities on days 0 and 20
and target date 10 gives `buffer_days = 20 - 10`, with 20 the last
positive-due date. -/
theorem buffer_days_witness :
    ∃ ld, (∃ r ∈ [(⟨0, 5, 0⟩ : SRow), ⟨20, 7, 100⟩], 0 < r.qty0 ∧ r.date = ld) ∧
          (∀ r ∈ [(⟨0, 5, 0⟩ : SRow), ⟨20, 7, 100⟩], 0 < r.qty0 → r.date ≤ ld) ∧
          step2_buffer_days [⟨0, 5, 0⟩, ⟨20, 7, 100⟩] 10 = ld - 10 :=
  (buffer_days_characterization [⟨0, 5, 0⟩, ⟨20, 7, 100⟩] 10).2
    ⟨0, 5, 0⟩ (by decide) (by decide)

/-! ## Plan validator (`functions_part2b.step6_validate_ai_strategy`) -/

/-- One row of the production plan DataFrame (`plan_df`); only the columns
the validator and fallback planner consume are modelled. -/
structure PlanRow where
  plan_date : Int
  line : String
  product_name : String
  qty0 : Int
  qty1 : Int
  plt : Int
  is_workday : Bool
deriving DecidableEq, Repr

/-- `is_workday_in_db`: the `is_workday` flag of the first plan row with
the given date; `false` when no such row exists. -/
def is_workday_in_db (plan : List PlanRow) (d : Int) : Bool :=
  match plan.find? (fun r => r.plan_date == d) with
  | some r => r.is_workday
  | none => false

/-- One entry of `constraint_info` (built by
`functions_part2a.step4_prepare_constraint_info`); only the keys consumed
by the validator and the fallback planner are modelled. -/
structure CItem where
  name : String
  plt : Int
  max_movable : Int
  buffer_days : Int
  is_t6 : Bool
  is_a2xx : Bool
deriving DecidableEq, Repr

/-- A proposed / validated move dict.  `dest` is the parsed
`"YYYY-MM-DD_line"` destination (`none` = malformed string, rejected by
the parse step); `plt`, `adjusted`, `original_qty` are the keys the
validator adds in place (absent = `none`).  The untouched `from` and
`reason` keys are omitted. -/
structure PMove where
  item : String
  qty : Int
  dest : Option (Int × String)
  plt : Option Int
  adjusted : Option Bool
  original_qty : Option Int
deriving DecidableEq, Repr

/-- The capacity ledger `capa_status`: association list from
`(date, line)` keys to the `remaining` field, the only field the
validator and fallback planner read or write. -/
abbrev CapaMap := List ((Int × String) × Int)

/-- `capa_status[key]['remaining']` (first entry with the key). -/
def capaLookup : CapaMap → (Int × String) → Option Int
  | [], _ => none
  | (k', r) :: rest, k => if k' = k then some r else capaLookup rest k

/-- `capa_status[key]['remaining'] -= q` (in-place decrement of the first
entry with the key). -/
def capaDec : CapaMap → (Int × String) → Int → CapaMap
  | [], _, _ => []
  | (k', r) :: rest, k, q => if k' = k then (k', r - q) :: rest else (k', r) :: capaDec rest k q

/-- Kinds of `violations` log entries emitted by the validator, one per
f-string in the source (the human-readable payload is abstracted away). -/
inductive VKind
  | formatError    -- "AI 전략 형식 오류: 'moves' 키가 없습니다"
  | notInList      -- 검증 1: 이동 가능 품목 목록에 없음
  | overSlack      -- 검증 2: 누적 여유 초과
  | pltUnit        -- 검증 3: PLT 단위 아님
  | badDest        -- 검증 4: 목적지 형식 오류
  | a2xxLine       -- 검증 5: A2XX는 조립3 이동 불가
  | dedicatedLine  -- 검증 5: 전용 모델은 타라인 이동 불가
  | noCapaInfo     -- 검증 6: 목적지 CAPA 정보 없음
  | adjustOk       -- 검증 6: CAPA 부족으로 자동 조정 (✅ success entry)
  | capaShort      -- 검증 6: CAPA 부족 및 조정 불가
  | notWorkday     -- 검증 7: 휴무일
deriving DecidableEq, Repr

/-- A `violations` entry: the 1-based move index plus the entry kind. -/
structure Viol where
  idx : Nat
  kind : VKind
deriving DecidableEq, Repr

/-- Result of validating a single proposed move: the (possibly mutated)
move dict, whether it was appended to `validated_moves`, the updated
ledger, the capacity charge actually subtracted from the ledger (if the
move reached the capacity-commitment point), and the log entries emitted
for this move. -/
structure StepRes where
  mv : PMove
  ok : Bool
  capa : CapaMap
  charge : Option ((Int × String) × Int)
  logs : List Viol
deriving Repr

/-- The per-move body of `step6_validate_ai_strategy`'s loop: checks 1-7
in source order, including the in-place mutation of the move dict, the
auto-shrink, and the ledger decrement that precedes the workday check. -/
def validateMove (cinfo : List CItem) (plan : List PlanRow) (target_line : String)
    (capa : CapaMap) (idx : Nat) (move : PMove) : StepRes :=
  match cinfo.find? (fun x => x.name == move.item) with
  | none => ⟨move, false, capa, none, [⟨idx, .notInList⟩]⟩
  | some item =>
    if item.max_movable < move.qty then ⟨move, false, capa, none, [⟨idx, .overSlack⟩]⟩
    else if move.qty % item.plt ≠ 0 then ⟨move, false, capa, none, [⟨idx, .pltUnit⟩]⟩
    else match move.dest with
    | none => ⟨move, false, capa, none, [⟨idx, .badDest⟩]⟩
    | some (to_date, to_line) =>
      if item.is_a2xx = true ∧ to_line = "조립3" then
        ⟨move, false, capa, none, [⟨idx, .a2xxLine⟩]⟩
      else if item.is_t6 = false ∧ item.is_a2xx = false ∧ to_line ≠ target_line then
        ⟨move, false, capa, none, [⟨idx, .dedicatedLine⟩]⟩
      else match capaLookup capa (to_date, to_line) with
      | none => ⟨move, false, capa, none, [⟨idx, .noCapaInfo⟩]⟩
      | some remaining =>
        if remaining < move.qty then
          if item.plt ≤ remaining then
            let adj_plts := remaining / item.plt
            let adj_qty := adj_plts * item.plt
            let mv' : PMove :=
              ⟨move.item, adj_qty, move.dest, some adj_plts, some true, some move.qty⟩
            let capa' := capaDec capa (to_date, to_line) adj_qty
            if is_workday_in_db plan to_date then
              ⟨mv', true, capa', some ((to_date, to_line), adj_qty), [⟨idx, .adjustOk⟩]⟩
            else
              ⟨mv', false, capa', some ((to_date, to_line), adj_qty),
               [⟨idx, .adjustOk⟩, ⟨idx, .notWorkday⟩]⟩
          else ⟨move, false, capa, none, [⟨idx, .capaShort⟩]⟩
        else
          let mv' : PMove :=
            ⟨move.item, move.qty, move.dest, some (move.qty / item.plt), some false,
             move.original_qty⟩
          let capa' := capaDec capa (to_date, to_line) move.qty
          if is_workday_in_db plan to_date then
            ⟨mv', true, capa', some ((to_date, to_line), move.qty), []⟩
          else
            ⟨mv', false, capa', some ((to_date, to_line), move.qty), [⟨idx, .notWorkday⟩]⟩

/-- Aggregate result of `step6_validate_ai_strategy`. -/
structure V6Res where
  validated : List PMove
  updated : List PMove
  charges : List ((Int × String) × Int)
  capa : CapaMap
  logs : List Viol
deriving Repr

/-- The validation loop (`for idx, move in enumerate(ai_strategy['moves'], 1)`). -/
def v6go (cinfo : List CItem) (plan : List PlanRow) (target_line : String) :
    Nat → List PMove → V6Res → V6Res
  | _, [], acc => acc
  | idx, m :: ms, acc =>
    let r := validateMove cinfo plan target_line acc.capa idx m
    v6go cinfo plan target_line (idx + 1) ms
      { validated := acc.validated ++ (if r.ok then [r.mv] else [])
      , updated := acc.updated ++ [r.mv]
      , charges := acc.charges ++ (match r.charge with | some c => [c] | none => [])
      , capa := r.capa
      , logs := acc.logs ++ r.logs }

/-- `step6_validate_ai_strategy`: `none` models a strategy dict without a
`moves` key (format-error early return with an empty validated list). -/
def step6_validate_ai_strategy (cinfo : List CItem) (plan : List PlanRow)
    (target_line : String) (strategy : Option (List PMove)) (capa : CapaMap) : V6Res :=
  match strategy with
  | none => ⟨[], [], [], capa, [⟨0, .formatError⟩]⟩
  | some ms => v6go cinfo plan target_line 1 ms ⟨[], [], [], capa, []⟩

/-- `capa_status[key]['remaining']` read with default 0 (used to state
ledger conservation uniformly over keys that may be absent). -/
def capaLookupD (m : CapaMap) (k : Int × String) : Int :=
  (capaLookup m k).getD 0

/-- Total charge recorded against key `k` in a charge list. -/
def chSum (k : Int × String) : List ((Int × String) × Int) → Int
  | [] => 0
  | c :: cs => (if c.1 = k then c.2 else 0) + chSum k cs

lemma chSum_append (k : Int × String) (a b : List ((Int × String) × Int)) :
    chSum k (a ++ b) = chSum k a + chSum k b := by
  induction a with
  | nil => simp [chSum]
  | cons c cs ih => simp [chSum, ih]; ring

lemma capaLookup_dec (m : CapaMap) (k : Int × String) (q : Int) (k' : Int × String) :
    capaLookup (capaDec m k q) k' =
      if k' = k then (capaLookup m k).map (· - q) else capaLookup m k' := by
  induction m with
  | nil => simp [capaDec, capaLookup]
  | cons e rest ih =>
      obtain ⟨k0, r⟩ := e
      by_cases hA : k0 = k
      · subst hA
        by_cases hB : k' = k0
        · subst hB
          simp [capaDec, capaLookup]
        · have hB' : ¬ k0 = k' := fun h => hB h.symm
          simp [capaDec, capaLookup, hB, hB']
      · by_cases hB : k' = k0
        · simp [capaDec, capaLookup, hA, hB]
        · have hB' : ¬ k0 = k' := fun h => hB h.symm
          simp [capaDec, capaLookup, hA, hB, hB', ih]

lemma capaLookupD_dec_of_some (capa : CapaMap) (key : Int × String) (rem q : Int)
    (k : Int × String) (h : capaLookup capa key = some rem) :
    capaLookupD (capaDec capa key q) k = capaLookupD capa k - (if key = k then q else 0) := by
  by_cases hk : k = key
  · subst hk
    simp [capaLookupD, capaLookup_dec, h]
  · rw [capaLookupD, capaLookup_dec, if_neg hk, if_neg (fun hh : key = k => hk hh.symm)]
    simp [capaLookupD]

/-- Charge against key `k` recorded by a single validation step. -/
def chargeAmt (k : Int × String) : Option ((Int × String) × Int) → Int
  | none => 0
  | some c => if c.1 = k then c.2 else 0

lemma validateMove_capa (cinfo : List CItem) (plan : List PlanRow) (target_line : String)
    (capa : CapaMap) (idx : Nat) (move : PMove) (k : Int × String) :
    capaLookupD (validateMove cinfo plan target_line capa idx move).capa k =
      capaLookupD capa k -
        chargeAmt k (validateMove cinfo plan target_line capa idx move).charge := by
  unfold validateMove
  repeat' split
  all_goals simp_all [chargeAmt, capaLookupD_dec_of_some]

lemma v6go_conservation (cinfo : List CItem) (plan : List PlanRow) (target_line : String)
    (ms : List PMove) (idx : Nat) (acc : V6Res) (k : Int × String) :
    capaLookupD (v6go cinfo plan target_line idx ms acc).capa k +
      chSum k (v6go cinfo plan target_line idx ms acc).charges =
    capaLookupD acc.capa k + chSum k acc.charges := by
  induction ms generalizing idx acc with
  | nil => rfl
  | cons m t ih =>
      rw [v6go, ih]
      have hstep := validateMove_capa cinfo plan target_line acc.capa idx m k
      simp only [chSum_append]
      cases hc : (validateMove cinfo plan target_line acc.capa idx m).charge with
      | none => rw [hc] at hstep; simp_all [chSum, chargeAmt]
      | some c => rw [hc] at hstep; simp_all [chSum, chargeAmt]; try omega

/-- Counterexample for C4: a move that passes the capacity check (ledger
decremented by its quantity) and is then rejected by the workday check
leaves no validated move, yet the ledger entry for its destination has
changed, so initial remaining minus the sum of validated quantities does
not equal the final remaining. -/
theorem rejected_move_decrements_ledger_cex :
    (step6_validate_ai_strategy [⟨"A", 100, 1000, 999, true, false⟩] [] "조립1"
        (some [⟨"A", 100, some (5, "조립2"), none, none, none⟩])
        [((5, "조립2"), 1000)]).validated = [] ∧
    capaLookup (step6_validate_ai_strategy [⟨"A", 100, 1000, 999, true, false⟩] [] "조립1"
        (some [⟨"A", 100, some (5, "조립2"), none, none, none⟩])
        [((5, "조립2"), 1000)]).capa (5, "조립2") = some 900 ∧
    capaLookup [((5, "조립2"), 1000)] (5, "조립2") = some 1000 := by
  refine ⟨by decide, by decide, by decide⟩

/-- C4 (amended): for every destination key, the initial remaining
capacity minus the total quantity committed at the capacity stage (the
recorded charges: final quantities of accepted and auto-adjusted moves,
including those subsequently rejected by the workday check) equals the
final remaining capacity; a move rejected before the capacity stage
leaves the ledger unchanged (it records no charge). -/
theorem capa_conservation_committed (cinfo : List CItem) (plan : List PlanRow)
    (target_line : String) (strategy : Option (List PMove)) (capa : CapaMap)
    (k : Int × String) :
    capaLookupD (step6_validate_ai_strategy cinfo plan target_line strategy capa).capa k =
      capaLookupD capa k -
        chSum k (step6_validate_ai_strategy cinfo plan target_line strategy capa).charges := by
  cases strategy with
  | none => simp [step6_validate_ai_strategy, chSum]
  | some ms =>
      have h := v6go_conservation cinfo plan target_line ms 1 ⟨[], [], [], capa, []⟩ k
      simp only [step6_validate_ai_strategy]
      simp only [chSum] at h
      omega

/-- Counterexample for C5: a move auto-shrunk at the capacity stage and
then failing the workday check receives two logged outcomes — a
successful-adjustment entry and a rejection entry — for the same move
index, and is excluded from the validated moves. -/
theorem double_disposition_cex :
    (step6_validate_ai_strategy [⟨"A", 100, 1000, 999, true, false⟩] [] "조립1"
        (some [⟨"A", 400, some (5, "조립2"), none, none, none⟩])
        [((5, "조립2"), 250)]).logs =
      [⟨1, VKind.adjustOk⟩, ⟨1, VKind.notWorkday⟩] ∧
    (step6_validate_ai_strategy [⟨"A", 100, 1000, 999, true, false⟩] [] "조립1"
        (some [⟨"A", 400, some (5, "조립2"), none, none, none⟩])
        [((5, "조립2"), 250)]).validated = [] := by
  refine ⟨by decide, by decide⟩

/-- C5 (amended): each proposed move receives at least one terminal
disposition — it is either validated with no log entry (accepted), or
validated with exactly one successful-adjustment entry, or rejected with
exactly one rejection entry — except that a move auto-shrunk at the
capacity stage and then rejected by the workday check is logged both as an
adjustment and as a rejection; no move is silently dropped. -/
theorem per_move_disposition_cases (cinfo : List CItem) (plan : List PlanRow)
    (target_line : String) (capa : CapaMap) (idx : Nat) (move : PMove) :
    ((validateMove cinfo plan target_line capa idx move).ok = true ∧
      ((validateMove cinfo plan target_line capa idx move).logs = [] ∨
       (validateMove cinfo plan target_line capa idx move).logs = [⟨idx, .adjustOk⟩])) ∨
    ((validateMove cinfo plan target_line capa idx move).ok = false ∧
      ((∃ k, (validateMove cinfo plan target_line capa idx move).logs = [⟨idx, k⟩] ∧
          k ≠ VKind.adjustOk) ∨
       (validateMove cinfo plan target_line capa idx move).logs =
         [⟨idx, .adjustOk⟩, ⟨idx, .notWorkday⟩])) := by
  unfold validateMove
  repeat' split
  all_goals first
    | exact Or.inl ⟨rfl, Or.inl rfl⟩
    | exact Or.inl ⟨rfl, Or.inr rfl⟩
    | exact Or.inr ⟨rfl, Or.inr rfl⟩
    | exact Or.inr ⟨rfl, Or.inl ⟨_, rfl, by decide⟩⟩

/-- C7: when a proposed move passes checks 1-5, its quantity exceeds the
destination's remaining capacity, and the remainder still fits at least
one pallet, the validator auto-shrinks the move in place: its qty becomes
`floor(remaining / palletUnit) * palletUnit`, `adjusted` is set,
`original_qty` records the request, the ledger entry is decremented by the
adjusted qty and stays nonnegative, and the capacity event is logged as a
successful adjustment, not as a capacity rejection. -/
theorem auto_shrink_spec (cinfo : List CItem) (plan : List PlanRow) (target_line : String)
    (capa : CapaMap) (idx : Nat) (move : PMove) (item : CItem) (d : Int) (l : String)
    (rem : Int)
    (hfind : cinfo.find? (fun x => x.name == move.item) = some item)
    (hplt : 0 < item.plt)
    (hslack : move.qty ≤ item.max_movable)
    (hmod : move.qty % item.plt = 0)
    (hdest : move.dest = some (d, l))
    (hfam1 : ¬(item.is_a2xx = true ∧ l = "조립3"))
    (hfam2 : ¬(item.is_t6 = false ∧ item.is_a2xx = false ∧ l ≠ target_line))
    (hcapa : capaLookup capa (d, l) = some rem)
    (hover : rem < move.qty)
    (hfit : item.plt ≤ rem) :
    (validateMove cinfo plan target_line capa idx move).mv.qty = rem / item.plt * item.plt ∧
    (validateMove cinfo plan target_line capa idx move).mv.adjusted = some true ∧
    (validateMove cinfo plan target_line capa idx move).mv.original_qty = some move.qty ∧
    capaLookup (validateMove cinfo plan target_line capa idx move).capa (d, l) =
      some (rem - rem / item.plt * item.plt) ∧
    0 ≤ rem - rem / item.plt * item.plt ∧
    ⟨idx, VKind.adjustOk⟩ ∈ (validateMove cinfo plan target_line capa idx move).logs ∧
    ∀ v ∈ (validateMove cinfo plan target_line capa idx move).logs,
      v.kind ≠ VKind.capaShort := by
  have hq : rem / item.plt * item.plt ≤ rem := by
    have h1 : item.plt * (rem / item.plt) + rem % item.plt = rem :=
      Int.ediv_add_emod rem item.plt
    have h2 : 0 ≤ rem % item.plt := Int.emod_nonneg rem (by omega)
    have h3 : rem / item.plt * item.plt = item.plt * (rem / item.plt) := mul_comm _ _
    omega
  have hns : ¬ item.max_movable < move.qty := not_lt.mpr hslack
  unfold validateMove
  rw [hfind, hdest]
  simp only [if_neg hns, if_neg (not_not_intro hmod), if_neg hfam1, if_neg hfam2]
  rw [hcapa]
  simp only [if_pos hover, if_pos hfit]
  by_cases hw : is_workday_in_db plan d
  · simp [hw, capaLookup_dec, hcapa, hq]
  · simp [hw, capaLookup_dec, hcapa, hq]

/-- Witness for C7: the spec's scenario — qty=400 against remaining=250
with palletUnit=100 — yields qty=200, `adjusted=true`, `originalQty=400`,
and the ledger entry drops to 50. -/
theorem auto_shrink_scenario :
    (validateMove [⟨"A", 100, 1000, 999, true, false⟩] [] "조립1" [((5, "조립2"), 250)] 1
        ⟨"A", 400, some (5, "조립2"), none, none, none⟩).mv.qty = 200 ∧
    (validateMove [⟨"A", 100, 1000, 999, true, false⟩] [] "조립1" [((5, "조립2"), 250)] 1
        ⟨"A", 400, some (5, "조립2"), none, none, none⟩).mv.adjusted = some true ∧
    (validateMove [⟨"A", 100, 1000, 999, true, false⟩] [] "조립1" [((5, "조립2"), 250)] 1
        ⟨"A", 400, some (5, "조립2"), none, none, none⟩).mv.original_qty = some 400 ∧
    capaLookup (validateMove [⟨"A", 100, 1000, 999, true, false⟩] [] "조립1"
        [((5, "조립2"), 250)] 1
        ⟨"A", 400, some (5, "조립2"), none, none, none⟩).capa (5, "조립2") = some 50 := by
  have h := auto_shrink_spec [⟨"A", 100, 1000, 999, true, false⟩] [] "조립1"
      [((5, "조립2"), 250)] 1 ⟨"A", 400, some (5, "조립2"), none, none, none⟩
      ⟨"A", 100, 1000, 999, true, false⟩ 5 "조립2" 250
      rfl (by decide) (by decide) (by decide) rfl (by decide) (by decide) rfl
      (by decide) (by decide)
  refine ⟨?_, h.2.1, h.2.2.1, ?_⟩
  · rw [h.1]; decide
  · rw [h.2.2.2.1]; decide

lemma shrink_lt {rem plt qty : Int} (hlt : rem < qty) (hfit : plt ≤ rem) :
    rem / plt * plt < qty := by
  rcases eq_or_ne plt 0 with h0 | h0
  · subst h0
    simp
    omega
  · have h1 : plt * (rem / plt) + rem % plt = rem := Int.ediv_add_emod rem plt
    have h2 : 0 ≤ rem % plt := Int.emod_nonneg rem h0
    have h3 : rem / plt * plt = plt * (rem / plt) := mul_comm _ _
    omega

lemma validateMove_ok_fields (cinfo : List CItem) (plan : List PlanRow)
    (target_line : String) (capa : CapaMap) (idx : Nat) (move : PMove) :
    (validateMove cinfo plan target_line capa idx move).ok = true →
    (validateMove cinfo plan target_line capa idx move).mv.adjusted.isSome ∧
    (validateMove cinfo plan target_line capa idx move).mv.plt.isSome := by
  unfold validateMove
  repeat' split
  all_goals intro h
  all_goals simp_all

lemma validateMove_adjust_shrinks (cinfo : List CItem) (plan : List PlanRow)
    (target_line : String) (capa : CapaMap) (idx : Nat) (move : PMove)
    (hraw : move.adjusted = none) :
    (validateMove cinfo plan target_line capa idx move).mv.adjusted = some true →
    (validateMove cinfo plan target_line capa idx move).mv.original_qty = some move.qty ∧
    (validateMove cinfo plan target_line capa idx move).mv.qty < move.qty := by
  unfold validateMove
  repeat' split
  all_goals intro h
  all_goals first
    | exact ⟨rfl, shrink_lt (by assumption) (by assumption)⟩
    | simp_all

lemma v6go_updated_structure (cinfo : List CItem) (plan : List PlanRow)
    (target_line : String) (ms : List PMove) (idx : Nat) (acc : V6Res)
    (hraw : ∀ m ∈ ms, m.adjusted = none) :
    ∃ us, (v6go cinfo plan target_line idx ms acc).updated = acc.updated ++ us ∧
      List.Forall₂ (fun (m u : PMove) => u.adjusted = some true →
        u.original_qty = some m.qty ∧ u.qty < m.qty) ms us := by
  induction ms generalizing idx acc with
  | nil => exact ⟨[], by simp [v6go], List.Forall₂.nil⟩
  | cons m t ih =>
      rw [v6go]
      obtain ⟨us, hu, hf⟩ := ih (idx + 1) _ (fun x hx => hraw x (List.mem_cons_of_mem _ hx))
      refine ⟨(validateMove cinfo plan target_line acc.capa idx m).mv :: us, ?_, ?_⟩
      · rw [hu]
        simp
      · exact List.Forall₂.cons
          (validateMove_adjust_shrinks cinfo plan target_line acc.capa idx m
            (hraw m (by simp))) hf

lemma v6go_validated_sub (cinfo : List CItem) (plan : List PlanRow)
    (target_line : String) (ms : List PMove) (idx : Nat) (acc : V6Res)
    (hacc : ∀ m ∈ acc.validated, m ∈ acc.updated ∧ m.adjusted.isSome ∧ m.plt.isSome) :
    ∀ m ∈ (v6go cinfo plan target_line idx ms acc).validated,
      m ∈ (v6go cinfo plan target_line idx ms acc).updated ∧
      m.adjusted.isSome ∧ m.plt.isSome := by
  induction ms generalizing idx acc with
  | nil =>
      intro m hm
      obtain ⟨h1, h2⟩ := hacc m hm
      refine ⟨h1, h2⟩
  | cons mv t ih =>
      rw [v6go]
      apply ih
      intro m hm
      rcases List.mem_append.mp hm with hm1 | hm2
      · obtain ⟨hmem, hf⟩ := hacc m hm1
        exact ⟨List.mem_append.mpr (Or.inl hmem), hf⟩
      · by_cases hok : (validateMove cinfo plan target_line acc.capa idx mv).ok = true
        · rw [if_pos hok] at hm2
          have hmv : m = (validateMove cinfo plan target_line acc.capa idx mv).mv := by
            simpa using hm2
          subst hmv
          exact ⟨List.mem_append.mpr (Or.inr (by simp)),
            validateMove_ok_fields cinfo plan target_line acc.capa idx mv hok⟩
        · rw [if_neg hok] at hm2
          simp at hm2

/-- C10: the validator mutates the caller's proposal in place — every
validated move is one of the (post-validation) proposal entries, every
validated move carries the added `adjusted` and `plt` keys, and the
post-validation proposal pairs up with the input proposal so that at every
auto-adjusted position the stored qty is strictly below the originally
proposed qty, which is preserved in `original_qty`. -/
theorem validator_mutates_proposal (cinfo : List CItem) (plan : List PlanRow)
    (target_line : String) (ms : List PMove) (capa : CapaMap)
    (hraw : ∀ m ∈ ms, m.adjusted = none) :
    (∀ m ∈ (step6_validate_ai_strategy cinfo plan target_line (some ms) capa).validated,
        m ∈ (step6_validate_ai_strategy cinfo plan target_line (some ms) capa).updated ∧
        m.adjusted.isSome ∧ m.plt.isSome) ∧
    List.Forall₂ (fun (m u : PMove) => u.adjusted = some true →
        u.original_qty = some m.qty ∧ u.qty < m.qty)
      ms (step6_validate_ai_strategy cinfo plan target_line (some ms) capa).updated := by
  constructor
  · exact v6go_validated_sub cinfo plan target_line ms 1 ⟨[], [], [], capa, []⟩ (by simp)
  · obtain ⟨us, hu, hf⟩ :=
      v6go_updated_structure cinfo plan target_line ms 1 ⟨[], [], [], capa, []⟩ hraw
    show List.Forall₂ _ ms (v6go cinfo plan target_line 1 ms ⟨[], [], [], capa, []⟩).updated
    rw [hu]
    simpa using hf

/-- Witness for C10: a single auto-shrunk and accepted move (qty=400
against remaining=250, pallet 100, workday destination) — the validated
move is the mutated proposal entry with qty 200 < 400 and
`original_qty = 400`. -/
theorem validator_mutates_proposal_witness :
    (∀ m ∈ (step6_validate_ai_strategy [⟨"A", 100, 1000, 999, true, false⟩]
        [⟨5, "조립2", "P", 0, 0, 100, true⟩] "조립1"
        (some [⟨"A", 400, some (5, "조립2"), none, none, none⟩])
        [((5, "조립2"), 250)]).validated,
        m ∈ (step6_validate_ai_strategy [⟨"A", 100, 1000, 999, true, false⟩]
        [⟨5, "조립2", "P", 0, 0, 100, true⟩] "조립1"
        (some [⟨"A", 400, some (5, "조립2"), none, none, none⟩])
        [((5, "조립2"), 250)]).updated ∧
        m.adjusted.isSome ∧ m.plt.isSome) ∧
    List.Forall₂ (fun (m u : PMove) => u.adjusted = some true →
        u.original_qty = some m.qty ∧ u.qty < m.qty)
      [⟨"A", 400, some (5, "조립2"), none, none, none⟩]
      (step6_validate_ai_strategy [⟨"A", 100, 1000, 999, true, false⟩]
        [⟨5, "조립2", "P", 0, 0, 100, true⟩] "조립1"
        (some [⟨"A", 400, some (5, "조립2"), none, none, none⟩])
        [((5, "조립2"), 250)]).updated :=
  validator_mutates_proposal [⟨"A", 100, 1000, 999, true, false⟩]
    [⟨5, "조립2", "P", 0, 0, 100, true⟩] "조립1"
    [⟨"A", 400, some (5, "조립2"), none, none, none⟩]
    [((5, "조립2"), 250)] (by decide)

/-! ## Fallback planner (`main_engine.ask_professional_scheduler`, step 6.5)

Reduction mode (`operation_mode == "reduce"`, lines 413-633) and increase
mode (`operation_mode == "increase"`, lines 278-411). -/

/-- Sum of the `qty` fields of a move list
(`sum(m['qty'] for m in moves)`). -/
def sumQty (l : List PMove) : Int := (l.map PMove.qty).sum

/-- Candidate direction in the reduction fallback. -/
inductive CDir
  | transfer
  | past
  | future
deriving DecidableEq, Repr

/-- A candidate destination dict of the reduction fallback.  For `past`
and `future` candidates the source dict has no `line` key and the move is
built against the target line, which is stored here. -/
structure Cand where
  date : Int
  line : String
  remaining : Int
  days_diff : Int
  dir : CDir
deriving DecidableEq, Repr

/-- Stable insertion by ascending key (`sorted(..., key=...)`). -/
def insertByKey {α : Type} (f : α → Int) (c : α) : List α → List α
  | [] => [c]
  | x :: xs => if f c ≤ f x then c :: x :: xs else x :: insertByKey f c xs

/-- Sort by ascending key (`sorted(..., key=...)`). -/
def sortByKey {α : Type} (f : α → Int) : List α → List α
  | [] => []
  | x :: xs => insertByKey f x (sortByKey f xs)

/-- `sum` of `qty_1차` over the rows at a given date and line. -/
def sumQty1At (plan : List PlanRow) (d : Int) (line : String) : Int :=
  ((plan.filter fun r => r.plan_date == d && r.line == line).map PlanRow.qty1).sum

/-- Reduction fallback, step [1]: same-day other-line transfer candidates.
The loop runs over the literal list `["조립2", "조립3"]`, skips the target
line, and keeps lines whose `capa_status` entry exists with positive
remaining. -/
def transferCands (capa : CapaMap) (qdate : Int) (target_line : String) : List Cand :=
  (["조립2", "조립3"].filter fun l => l != target_line).filterMap fun l =>
    match capaLookup capa (qdate, l) with
    | some r => if 0 < r then some ⟨qdate, l, r, 0, .transfer⟩ else none
    | none => none

/-- Reduction fallback, step [2]: future same-line candidates, up to 15
days out; a day qualifies when some plan row exists at that date and the
first such row is flagged a workday; remaining capacity is recomputed from
the plan and `CAPA_LIMITS`, not read from `capa_status`. -/
def futureCands (plan : List PlanRow) (limits : String → Int) (qdate : Int)
    (target_line : String) : List Cand :=
  ((List.range 15).map (· + 1)).filterMap fun i =>
    match plan.find? (fun r => r.plan_date == qdate + (i : Int)) with
    | none => none
    | some r0 =>
        if r0.is_workday then
          some ⟨qdate + (i : Int), target_line,
                limits target_line - sumQty1At plan (qdate + (i : Int)) target_line,
                (i : Int), .future⟩
        else none

/-- `past_range`: 3 candidate days when the target date is at most 7 days
from today, 2 when at most 14, else 1. -/
def pastRange (today qdate : Int) : Nat :=
  if qdate - today ≤ 7 then 3 else if qdate - today ≤ 14 then 2 else 1

/-- Reduction fallback, step [3]: past same-line candidates behind the
frozen horizon (`TODAY + 3`); remaining recomputed from the plan. -/
def pastCands (plan : List PlanRow) (limits : String → Int) (today qdate : Int)
    (target_line : String) : List Cand :=
  ((List.range (pastRange today qdate)).map (· + 1)).filterMap fun i =>
    let d := qdate - (i : Int)
    if d < today + 3 ∨ d < today then none
    else match plan.find? (fun r => r.plan_date == d) with
      | none => none
      | some r0 =>
          if r0.is_workday then
            some ⟨d, target_line, limits target_line - sumQty1At plan d target_line,
                  -(i : Int), .past⟩
          else none

/-- Fallback-stage log entries (`fallback_violations` /
`increase_violations`), one constructor per f-string of the source. -/
inductive FKind
  | noMoreMovable   -- 모든 품목이 이미 최대치로 이동되어 추가 이동 불가
  | redHeader       -- Python 폴백 (추가) 전략 활성화 header
  | noDates         -- 이동 가능한 날짜 정보를 찾을 수 없습니다
  | datesInfo       -- 이동 가능 날짜: ... header
  | redMoveOk       -- per-move ✅ entry
  | achieved        -- 목표 90% 달성
  | redFailCands    -- 폴백 전략 실패: CAPA 부족 또는 제약으로 이동 불가
  | redFailNoDates  -- 폴백 전략 실패: 이동 가능한 날짜 정보 없음
  | incHeader       -- Python 증량 (추가) 전략 header
  | noSources       -- 가져올 수 있는 품목이 없습니다
  | sourcesInfo     -- 가져올 수 있는 품목: ... header
  | incMoveOk       -- per-move ✅ entry
  | incAchieved     -- 목표 90% 달성
  | incFail         -- 증량 전략 실패: 가져올 품목 없음
deriving DecidableEq, Repr

/-- Reduction fallback, step [0]: items still movable after subtracting the
quantity already moved for them in `final_moves`; an item stays only when
its remaining movable quantity clears one pallet, and its `max_movable` is
replaced by that remainder (on a copy). -/
def movableItems (cinfo : List CItem) (final_moves : List PMove) : List CItem :=
  cinfo.filterMap fun it =>
    let already := sumQty (final_moves.filter fun m => m.item == it.name)
    let rm := it.max_movable - already
    if it.plt ≤ rm then
      some ⟨it.name, it.plt, rm, it.buffer_days, it.is_t6, it.is_a2xx⟩
    else none

/-- State threaded through the reduction fallback's item/candidate loops:
the candidate dicts (mutated in place as they absorb moves), the collected
fallback moves and log entries, the 90%-achieved flag, and the per-item
`moved` flag. -/
structure LoopSt where
  cands : List Cand
  fmoves : List PMove
  flogs : List FKind
  done : Bool
  moved : Bool
deriving Repr

/-- Reduction fallback, step [5] inner loop over candidate positions for
one item.  Mirrors the source exactly: the item's `max_movable` is NOT
decremented between successive candidates, only the candidate's
`remaining` is; the inner loop continues past a successful move unless the
90% threshold is reached. -/
def innerLoop (qdate : Int) (target_line : String) (current opq : Int) (item : CItem) :
    List Nat → LoopSt → LoopSt
  | [], st => st
  | j :: js, st =>
    if st.done then st
    else
      match st.cands.get? j with
      | none => innerLoop qdate target_line current opq item js st
      | some c =>
        if c.remaining < item.plt then
          innerLoop qdate target_line current opq item js st
        else if c.dir = .transfer ∧ item.is_a2xx = true ∧ c.line = "조립3" then
          innerLoop qdate target_line current opq item js st
        else if c.dir = .transfer ∧ item.is_t6 = false ∧ item.is_a2xx = false then
          innerLoop qdate target_line current opq item js st
        else if c.dir = .future ∧ item.buffer_days < |c.days_diff| then
          innerLoop qdate target_line current opq item js st
        else
          let mp := min (item.max_movable / item.plt) (c.remaining / item.plt)
          if 0 < mp then
            let q := mp * item.plt
            let dest : Int × String :=
              if c.dir = .transfer then (c.date, c.line) else (c.date, target_line)
            let mv : PMove := ⟨item.name, q, some dest, some mp, some false, none⟩
            let cands' := st.cands.set j ⟨c.date, c.line, c.remaining - q, c.days_diff, c.dir⟩
            let fm := st.fmoves ++ [mv]
            let lg := st.flogs ++ [.redMoveOk]
            if 9 * opq ≤ 10 * (current + sumQty fm) then
              ⟨cands', fm, lg ++ [.achieved], true, true⟩
            else
              innerLoop qdate target_line current opq item js
                ⟨cands', fm, lg, st.done, true⟩
          else innerLoop qdate target_line current opq item js st

/-- Reduction fallback, step [5] outer loop over the movable items. -/
def outerLoop (qdate : Int) (target_line : String) (current opq : Int) :
    List CItem → LoopSt → LoopSt
  | [], st => st
  | it :: its, st =>
    if st.done then st
    else
      let st' := innerLoop qdate target_line current opq it
        (List.range st.cands.length) ⟨st.cands, st.fmoves, st.flogs, st.done, false⟩
      if st'.moved = true ∧ 9 * opq ≤ 10 * (current + sumQty st'.fmoves) then st'
      else outerLoop qdate target_line current opq its st'

/-- Result of one fallback stage: the appended moves, the log entries
appended to `violations`, the capacity ledger as left by the stage, and
whether the fallback block actually ran. -/
structure RedRes where
  added : List PMove
  logs : List FKind
  capa : CapaMap
  invoked : Bool
deriving Repr

/-- The reduction branch of step 6.5 (`elif operation_mode == "reduce"`):
guarded by `if constraint_info:` and by the 90% threshold over the
already-validated moves; builds transfer/past/future candidates, runs the
greedy loop, and logs headers, per-move entries and failure entries
exactly as the source does. -/
def reduceStage (cinfo : List CItem) (plan : List PlanRow) (limits : String → Int)
    (today qdate : Int) (target_line : String) (capa : CapaMap)
    (final_moves : List PMove) (opq : Int) : RedRes :=
  if cinfo = [] then ⟨[], [], capa, false⟩
  else
    let current := sumQty final_moves
    if 9 * opq ≤ 10 * current then ⟨[], [], capa, false⟩
    else
      let movable := movableItems cinfo final_moves
      if movable = [] then ⟨[], [.noMoreMovable], capa, true⟩
      else
        let tc := transferCands capa qdate target_line
        let pc := pastCands plan limits today qdate target_line
        let fc := futureCands plan limits qdate target_line
        let all := tc ++ sortByKey (·.days_diff) pc ++ sortByKey (·.days_diff) fc
        if all = [] then ⟨[], [.redHeader, .noDates, .redFailNoDates], capa, true⟩
        else
          let st := outerLoop qdate target_line current opq movable
            ⟨all, [], [], false, false⟩
          if st.fmoves = [] then
            ⟨[], [.redHeader, .datesInfo] ++ st.flogs ++ [.redFailCands], capa, true⟩
          else ⟨st.fmoves, [.redHeader, .datesInfo] ++ st.flogs, capa, true⟩

/-- `"T6" in product_name.upper()` — the UniversalFamily marker test. -/
def listStartsWith : List Char → List Char → Bool
  | [], _ => true
  | _ :: _, [] => false
  | a :: as, b :: bs => a == b && listStartsWith as bs

/-- Substring occurrence over character lists. -/
def listHasInfix (needle : List Char) : List Char → Bool
  | [] => listStartsWith needle []
  | c :: rest => listStartsWith needle (c :: rest) || listHasInfix needle rest

/-- `"T6" in s.upper()` — `.upper()` modelled as per-character uppercase
over the string's characters. -/
def hasT6 (s : String) : Bool := listHasInfix ['T', '6'] (s.toList.map Char.toUpper)

/-- A candidate source dict of the increase fallback. -/
structure Src where
  date : Int
  line : String
  item : String
  qty : Int
  plt : Int
  days_diff : Int
  dir : CDir
deriving DecidableEq, Repr

/-- `(l.map f).join` (list-of-lists flattening used for per-row source
generation). -/
def listBind {α β : Type} (l : List α) (f : α → List β) : List β := (l.map f).flatten

/-- Increase fallback, step [1]: future same-line sources — all rows with
positive `qty_1차` on the target line, 1 to 10 days after the target date
(no workday filter in the source code). -/
def futureSources (plan : List PlanRow) (qdate : Int) (target_line : String) : List Src :=
  listBind ((List.range 10).map (· + 1)) fun (i : Nat) =>
    (plan.filter fun r =>
        r.plan_date == qdate + (i : Int) && r.line == target_line && decide (0 < r.qty1)).map
      fun r => ⟨qdate + (i : Int), target_line, r.product_name, r.qty1, r.plt, (i : Int), .future⟩

/-- Increase fallback, step [2]: same-day other-line sources — rows with
positive `qty_1차` whose product name carries the T6 marker; the loop runs
over the literal list `["조립2", "조립3"]` and skips the target line. -/
def transferSources (plan : List PlanRow) (qdate : Int) (target_line : String) : List Src :=
  listBind (["조립2", "조립3"].filter fun l => l != target_line) fun l =>
    (plan.filter fun r =>
        r.plan_date == qdate && r.line == l && decide (0 < r.qty1) && hasT6 r.product_name).map
      fun r => ⟨qdate, l, r.product_name, r.qty1, r.plt, 0, .transfer⟩

/-- State of the increase fallback's pull loop. -/
structure IncSt where
  imoves : List PMove
  ilogs : List FKind
  need : Int
deriving Repr

/-- Increase fallback, step [4]: pull pallet-multiples from each source in
priority order until `remaining_needed` is exhausted or the 90% threshold
is met.  Sources are visited once each; the destination
`(question_date, target_line)` is never checked against any capacity. -/
def incLoop (qdate : Int) (target_line : String) (current opq : Int) :
    List Src → IncSt → IncSt
  | [], st => st
  | s :: ss, st =>
    if st.need ≤ 0 then st
    else
      let mp := min (s.qty / s.plt) (st.need / s.plt)
      if 0 < mp then
        let q := mp * s.plt
        let mv : PMove := ⟨s.item, q, some (qdate, target_line), some mp, some false, none⟩
        let im := st.imoves ++ [mv]
        let lg := st.ilogs ++ [.incMoveOk]
        if 9 * opq ≤ 10 * (current + sumQty im) then ⟨im, lg ++ [.incAchieved], st.need - q⟩
        else incLoop qdate target_line current opq ss ⟨im, lg, st.need - q⟩
      else incLoop qdate target_line current opq ss st

/-- The increase branch of step 6.5 (`if operation_mode == "increase"`):
triggered purely by the 90% threshold; sources are other-line T6 rows
first, then future rows sorted by day offset. -/
def increaseStage (plan : List PlanRow) (qdate : Int) (target_line : String)
    (final_moves : List PMove) (opq : Int) : RedRes :=
  let current := sumQty final_moves
  if 9 * opq ≤ 10 * current then ⟨[], [], [], false⟩
  else
    let srcs := transferSources plan qdate target_line ++
      sortByKey (·.days_diff) (futureSources plan qdate target_line)
    if srcs = [] then ⟨[], [.incHeader, .noSources, .incFail], [], true⟩
    else
      let st := incLoop qdate target_line current opq srcs ⟨[], [], max 0 (opq - current)⟩
      if st.imoves = [] then ⟨[], [.incHeader, .sourcesInfo] ++ st.ilogs ++ [.incFail], [], true⟩
      else ⟨st.imoves, [.incHeader, .sourcesInfo] ++ st.ilogs, [], true⟩

/-- C2 (code bug): the reduction fallback moves the same item at two
candidate destinations without decrementing the item's remaining movable
quantity between moves — here an item with `max_movable = 100` is moved
100 units to each of two destinations, 200 units in total, exceeding its
cumulative `maxMovable` bound (which the validator itself would enforce,
and which the fallback is documented to preserve by construction). -/
theorem fallback_exceeds_max_movable :
    (reduceStage [⟨"X", 100, 100, 999, true, false⟩] [] (fun _ => 3300) 95 100 "조립1"
        [((100, "조립2"), 100), ((100, "조립3"), 100)] [] 1000).added.length = 2 ∧
    (∀ m ∈ (reduceStage [⟨"X", 100, 100, 999, true, false⟩] [] (fun _ => 3300) 95 100 "조립1"
        [((100, "조립2"), 100), ((100, "조립3"), 100)] [] 1000).added, m.item = "X") ∧
    sumQty (reduceStage [⟨"X", 100, 100, 999, true, false⟩] [] (fun _ => 3300) 95 100 "조립1"
        [((100, "조립2"), 100), ((100, "조립3"), 100)] [] 1000).added = 200 ∧
    (∀ it ∈ [(⟨"X", 100, 100, 999, true, false⟩ : CItem)], it.max_movable = 100) := by
  refine ⟨by decide, by decide, by decide, by decide⟩

/-- Counterexample for C3: the reduction fallback appends a 100-unit
transfer move to destination `(100, 조립2)`, yet the capacity ledger it
returns is identical to the one it was given — the fallback decrements
only its candidate-local copies, never the shared `capa_status`. -/
theorem fallback_leaves_ledger_unchanged_cex :
    (∃ m ∈ (reduceStage [⟨"X", 100, 100, 999, true, false⟩] [] (fun _ => 3300) 95 100 "조립1"
        [((100, "조립2"), 100), ((100, "조립3"), 100)] [] 1000).added,
        m.dest = some (100, "조립2") ∧ m.qty = 100) ∧
    (reduceStage [⟨"X", 100, 100, 999, true, false⟩] [] (fun _ => 3300) 95 100 "조립1"
        [((100, "조립2"), 100), ((100, "조립3"), 100)] [] 1000).capa =
      [((100, "조립2"), 100), ((100, "조립3"), 100)] := by
  refine ⟨⟨⟨"X", 100, some (100, "조립2"), some 1, some false, none⟩, by decide, by decide⟩,
    by decide⟩

/-- C3 (amended): the capacity ledger is shared one way only — the
reduction fallback's same-day transfer candidates are seeded from the
current (post-validation) remaining values of `capa_status`, so validator
commitments reduce what the fallback sees; but the fallback never writes
`capa_status` back (it returns the ledger unchanged), decrementing only
candidate-local copies. -/
theorem ledger_sharing_characterization (cinfo : List CItem) (plan : List PlanRow)
    (limits : String → Int) (today qdate : Int) (target_line : String) (capa : CapaMap)
    (fm : List PMove) (opq : Int) :
    (reduceStage cinfo plan limits today qdate target_line capa fm opq).capa = capa ∧
    (∀ l r, (l = "조립2" ∨ l = "조립3") → l ≠ target_line →
      capaLookup capa (qdate, l) = some r → 0 < r →
      (⟨qdate, l, r, 0, CDir.transfer⟩ : Cand) ∈ transferCands capa qdate target_line) := by
  constructor
  · simp only [reduceStage]
    repeat' split
    all_goals rfl
  · intro l r hl hne hlook hpos
    unfold transferCands
    apply List.mem_filterMap.mpr
    refine ⟨l, ?_, ?_⟩
    · apply List.mem_filter.mpr
      refine ⟨?_, ?_⟩
      · rcases hl with rfl | rfl <;> simp
      · simpa using hne
    · rw [hlook]
      simp [hpos]

/-- Witness for C3: with a ledger holding 50 remaining at `(7, 조립2)` and
target line 조립1, the stage returns the ledger unchanged and 조립2 is a
seeded transfer candidate with exactly that remaining. -/
theorem ledger_sharing_witness :
    (reduceStage [] [] (fun _ => 0) 0 7 "조립1" [((7, "조립2"), 50)] [] 10).capa
        = [((7, "조립2"), 50)] ∧
    (⟨7, "조립2", 50, 0, CDir.transfer⟩ : Cand) ∈
      transferCands [((7, "조립2"), 50)] 7 "조립1" :=
  ⟨(ledger_sharing_characterization [] [] (fun _ => 0) 0 7 "조립1"
      [((7, "조립2"), 50)] [] 10).1,
   (ledger_sharing_characterization [] [] (fun _ => 0) 0 7 "조립1"
      [((7, "조립2"), 50)] [] 10).2 "조립2" 50 (Or.inl rfl) (by decide) rfl (by decide)⟩

/-- Counterexample for C6: with target line 조립2, line 조립1 has positive
remaining capacity (reduction) and a positive-quantity T6 row (increase),
yet is never a transfer destination nor a transfer source — the fallback
iterates only over the literal lines `["조립2", "조립3"]`. -/
theorem line1_not_covered_cex :
    capaLookup [((5, "조립1"), 100)] (5, "조립1") = some 100 ∧
    (0 : Int) < 100 ∧ "조립1" ≠ "조립2" ∧
    transferCands [((5, "조립1"), 100)] 5 "조립2" = [] ∧
    hasT6 "T6-100" = true ∧
    transferSources [(⟨5, "조립1", "T6-100", 0, 500, 100, true⟩ : PlanRow)] 5 "조립2" = [] := by
  refine ⟨by decide, by decide, by decide, by decide, by decide, by decide⟩

/-- C6 (amended): candidate coverage is restricted to the literal line
list `["조립2", "조립3"]`.  Reduction mode: a candidate line is exactly a
line from that list, different from the target, whose ledger entry exists
with positive remaining (so with target 조립1 every other line is covered,
but with target 조립2 or 조립3 line 조립1 is never a destination).
Increase mode: every transfer source comes from that list minus the
target, and conversely every positive-quantity T6 row on such a line is a
source. -/
theorem transfer_candidates_characterization (capa : CapaMap) (plan : List PlanRow)
    (qdate : Int) (target_line : String) :
    (∀ c : Cand, c ∈ transferCands capa qdate target_line ↔
      ((c.line = "조립2" ∨ c.line = "조립3") ∧ c.line ≠ target_line ∧
       capaLookup capa (qdate, c.line) = some c.remaining ∧ 0 < c.remaining ∧
       c.date = qdate ∧ c.days_diff = 0 ∧ c.dir = CDir.transfer)) ∧
    (∀ s ∈ transferSources plan qdate target_line,
       (s.line = "조립2" ∨ s.line = "조립3") ∧ s.line ≠ target_line) ∧
    (∀ row ∈ plan, row.plan_date = qdate → (row.line = "조립2" ∨ row.line = "조립3") →
       row.line ≠ target_line → 0 < row.qty1 → hasT6 row.product_name = true →
       (⟨qdate, row.line, row.product_name, row.qty1, row.plt, 0, CDir.transfer⟩ : Src) ∈
         transferSources plan qdate target_line) := by
  refine ⟨?_, ?_, ?_⟩
  · intro c
    obtain ⟨cd, cl, cr, cdd, cdir⟩ := c
    unfold transferCands
    simp only [List.mem_filterMap, List.mem_filter]
    constructor
    · rintro ⟨l, ⟨hl, hlt⟩, hf⟩
      split at hf
      next r hcl =>
        split at hf
        next hr =>
          simp only [Option.some.injEq, Cand.mk.injEq] at hf
          obtain ⟨h1, h2, h3, h4, h5⟩ := hf
          subst h1; subst h2; subst h3; subst h4; subst h5
          exact ⟨by simpa using hl, by simpa using hlt, hcl, hr, rfl, rfl, rfl⟩
        next hr => simp at hf
      next hcl => simp at hf
    · rintro ⟨hl, hne, hlook, hpos, rfl, rfl, rfl⟩
      refine ⟨cl, ⟨?_, ?_⟩, ?_⟩
      · rcases hl with rfl | rfl <;> simp
      · simpa using hne
      · rw [hlook]
        simp [hpos]
  · intro s hs
    unfold transferSources listBind at hs
    simp only [List.mem_flatten, List.mem_map, List.mem_filter] at hs
    obtain ⟨L, ⟨l, ⟨hl, hlt⟩, hL⟩, hsL⟩ := hs
    subst hL
    simp only [List.mem_map, List.mem_filter] at hsL
    obtain ⟨row, ⟨hrow, hcond⟩, hmk⟩ := hsL
    subst hmk
    refine ⟨by simpa using hl, by simpa using hlt⟩
  · intro row hrow hdate hline hne hq hT6
    unfold transferSources listBind
    simp only [List.mem_flatten, List.mem_map, List.mem_filter]
    refine ⟨_, ⟨row.line, ⟨?_, ?_⟩, rfl⟩, ?_⟩
    · rcases hline with h | h <;> simp [h]
    · simpa using hne
    · simp only [List.mem_map, List.mem_filter]
      refine ⟨row, ⟨hrow, ?_⟩, rfl⟩
      simp [hdate, hq, hT6]

/-- Witness for C6 (amended): with target line 조립1, line 조립3 with 80
remaining is a reduction transfer candidate, and a 200-unit T6 row on
조립3 is an increase transfer source. -/
theorem transfer_candidates_witness :
    (⟨5, "조립3", 80, 0, CDir.transfer⟩ : Cand) ∈
      transferCands [((5, "조립3"), 80)] 5 "조립1" ∧
    (⟨5, "조립3", "T6-X", 200, 100, 0, CDir.transfer⟩ : Src) ∈
      transferSources [(⟨5, "조립3", "T6-X", 0, 200, 100, true⟩ : PlanRow)] 5 "조립1" := by
  have h := transfer_candidates_characterization [((5, "조립3"), 80)]
      [(⟨5, "조립3", "T6-X", 0, 200, 100, true⟩ : PlanRow)] 5 "조립1"
  exact ⟨(h.1 _).mpr ⟨Or.inr rfl, by decide, rfl, by decide, rfl, rfl, rfl⟩,
    h.2.2 (⟨5, "조립3", "T6-X", 0, 200, 100, true⟩ : PlanRow) (by simp) rfl (Or.inr rfl)
      (by decide) (by decide) (by decide)⟩

lemma innerLoop_flogs (qdate : Int) (target_line : String) (current opq : Int)
    (item : CItem) (js : List Nat) (st : LoopSt) :
    ∀ e ∈ (innerLoop qdate target_line current opq item js st).flogs,
      e ∈ st.flogs ∨ e = FKind.redMoveOk ∨ e = FKind.achieved := by
  induction js generalizing st with
  | nil => intro e he; exact Or.inl he
  | cons j js ih =>
      intro e he
      simp only [innerLoop] at he
      repeat' split at he
      all_goals first
        | exact Or.inl he
        | exact ih _ e he
        | (rcases ih _ e he with h | h | h
           · rcases List.mem_append.mp h with h1 | h1
             · exact Or.inl h1
             · exact Or.inr (Or.inl (List.mem_singleton.mp h1))
           · exact Or.inr (Or.inl h)
           · exact Or.inr (Or.inr h))
        | (rcases List.mem_append.mp he with h | h
           · rcases List.mem_append.mp h with h1 | h1
             · exact Or.inl h1
             · exact Or.inr (Or.inl (List.mem_singleton.mp h1))
           · exact Or.inr (Or.inr (List.mem_singleton.mp h)))

lemma outerLoop_flogs (qdate : Int) (target_line : String) (current opq : Int)
    (items : List CItem) (st : LoopSt) :
    ∀ e ∈ (outerLoop qdate target_line current opq items st).flogs,
      e ∈ st.flogs ∨ e = FKind.redMoveOk ∨ e = FKind.achieved := by
  induction items generalizing st with
  | nil => intro e he; exact Or.inl he
  | cons it its ih =>
      intro e he
      simp only [outerLoop] at he
      repeat' split at he
      all_goals first
        | exact Or.inl he
        | exact innerLoop_flogs qdate target_line current opq it
            (List.range st.cands.length)
            ⟨st.cands, st.fmoves, st.flogs, st.done, false⟩ e he
        | (rcases ih _ e he with h | h | h
           · rcases innerLoop_flogs qdate target_line current opq it
                (List.range st.cands.length)
                ⟨st.cands, st.fmoves, st.flogs, st.done, false⟩ e h with h2 | h2 | h2
             · exact Or.inl h2
             · exact Or.inr (Or.inl h2)
             · exact Or.inr (Or.inr h2)
           · exact Or.inr (Or.inl h)
           · exact Or.inr (Or.inr h))

lemma incLoop_ilogs (qdate : Int) (target_line : String) (current opq : Int)
    (ss : List Src) (st : IncSt) :
    ∀ e ∈ (incLoop qdate target_line current opq ss st).ilogs,
      e ∈ st.ilogs ∨ e = FKind.incMoveOk ∨ e = FKind.incAchieved := by
  induction ss generalizing st with
  | nil => intro e he; exact Or.inl he
  | cons s ss ih =>
      intro e he
      simp only [incLoop] at he
      repeat' split at he
      all_goals first
        | exact Or.inl he
        | exact ih _ e he
        | (rcases ih _ e he with h | h | h
           · rcases List.mem_append.mp h with h1 | h1
             · exact Or.inl h1
             · exact Or.inr (Or.inl (List.mem_singleton.mp h1))
           · exact Or.inr (Or.inl h)
           · exact Or.inr (Or.inr h))
        | (rcases List.mem_append.mp he with h | h
           · rcases List.mem_append.mp h with h1 | h1
             · exact Or.inl h1
             · exact Or.inr (Or.inl (List.mem_singleton.mp h1))
           · exact Or.inr (Or.inr (List.mem_singleton.mp h)))

/-- Counterexample for C8, refuting both parts of the claim.  First, in
reduce mode with an empty classified-movable list, the sum of validated
quantities (0) is strictly below 90% of the target, yet the fallback block
is not invoked — the code guards it with `if constraint_info:` in addition
to the 90% threshold.  Second, an invoked reduction fallback that appends
one 100-unit move and then exhausts its only candidate while still below
90% of the target logs no exhaustion explanation at all — only header and
per-move entries. -/
theorem fallback_trigger_cex :
    (10 * sumQty ([] : List PMove) < 9 * (100 : Int) ∧
     (reduceStage [] [] (fun _ => 0) 0 5 "조립1" [] [] 100).invoked = false) ∧
    ((reduceStage [⟨"X", 100, 100, 999, true, false⟩] [] (fun _ => 3300) 95 100 "조립1"
        [((100, "조립2"), 100)] [] 1000).invoked = true ∧
     (reduceStage [⟨"X", 100, 100, 999, true, false⟩] [] (fun _ => 3300) 95 100 "조립1"
        [((100, "조립2"), 100)] [] 1000).added.length = 1 ∧
     10 * sumQty (reduceStage [⟨"X", 100, 100, 999, true, false⟩] [] (fun _ => 3300) 95 100
        "조립1" [((100, "조립2"), 100)] [] 1000).added < 9 * 1000 ∧
     ∀ e ∈ (reduceStage [⟨"X", 100, 100, 999, true, false⟩] [] (fun _ => 3300) 95 100 "조립1"
        [((100, "조립2"), 100)] [] 1000).logs,
       e ≠ FKind.noMoreMovable ∧ e ≠ FKind.noDates ∧ e ≠ FKind.redFailCands ∧
       e ≠ FKind.redFailNoDates) := by
  refine ⟨⟨by decide, by decide⟩, by decide, by decide, by decide, by decide⟩

/-- C8 (amended): the increase fallback runs exactly when the validated
total is strictly below 90% of the target; the reduction fallback
additionally requires a nonempty classified-movable list.  An invoked
stage that appends no move at all logs a nonempty exhaustion explanation
(`모든 품목 최대치`, `날짜 정보 없음`, `폴백/증량 전략 실패`); an invoked
stage that appends some moves logs only header, per-move and
90%-achievement entries — in particular, when it exhausts its candidates
below the threshold, no exhaustion explanation is logged. -/
theorem fallback_trigger_and_exhaustion (cinfo : List CItem) (plan : List PlanRow)
    (limits : String → Int) (today qdate : Int) (target_line : String) (capa : CapaMap)
    (fm : List PMove) (opq : Int) :
    ((reduceStage cinfo plan limits today qdate target_line capa fm opq).invoked = true ↔
      (cinfo ≠ [] ∧ 10 * sumQty fm < 9 * opq)) ∧
    ((increaseStage plan qdate target_line fm opq).invoked = true ↔
      10 * sumQty fm < 9 * opq) ∧
    ((reduceStage cinfo plan limits today qdate target_line capa fm opq).invoked = true →
      (reduceStage cinfo plan limits today qdate target_line capa fm opq).added = [] →
      ∃ e ∈ (reduceStage cinfo plan limits today qdate target_line capa fm opq).logs,
        e = FKind.noMoreMovable ∨ e = FKind.noDates ∨ e = FKind.redFailCands ∨
        e = FKind.redFailNoDates) ∧
    ((increaseStage plan qdate target_line fm opq).invoked = true →
      (increaseStage plan qdate target_line fm opq).added = [] →
      ∃ e ∈ (increaseStage plan qdate target_line fm opq).logs,
        e = FKind.noSources ∨ e = FKind.incFail) ∧
    ((reduceStage cinfo plan limits today qdate target_line capa fm opq).invoked = true →
      (reduceStage cinfo plan limits today qdate target_line capa fm opq).added ≠ [] →
      ∀ e ∈ (reduceStage cinfo plan limits today qdate target_line capa fm opq).logs,
        e = FKind.redHeader ∨ e = FKind.datesInfo ∨ e = FKind.redMoveOk ∨
        e = FKind.achieved) ∧
    ((increaseStage plan qdate target_line fm opq).invoked = true →
      (increaseStage plan qdate target_line fm opq).added ≠ [] →
      ∀ e ∈ (increaseStage plan qdate target_line fm opq).logs,
        e = FKind.incHeader ∨ e = FKind.sourcesInfo ∨ e = FKind.incMoveOk ∨
        e = FKind.incAchieved) := by
  refine ⟨?_, ?_, ?_, ?_, ?_, ?_⟩
  · simp only [reduceStage]
    repeat' split
    all_goals simp_all
  · simp only [increaseStage]
    repeat' split
    all_goals simp_all
  · simp only [reduceStage]
    repeat' split
    all_goals intro hinv hadd
    all_goals simp_all
    all_goals exact ⟨FKind.redFailCands, Or.inr rfl, Or.inr (Or.inr (Or.inl rfl))⟩
  · simp only [increaseStage]
    repeat' split
    all_goals intro hinv hadd
    all_goals simp_all
    all_goals exact ⟨FKind.incFail, Or.inr rfl, Or.inr rfl⟩
  · simp only [reduceStage]
    repeat' split
    all_goals intro hinv hadd e he
    all_goals first
      | exact absurd hinv (by decide)
      | exact absurd rfl hadd
      | (rcases List.mem_append.mp he with h | h
         · simp only [List.mem_cons, List.not_mem_nil, or_false] at h
           rcases h with rfl | rfl
           · exact Or.inl rfl
           · exact Or.inr (Or.inl rfl)
         · rcases outerLoop_flogs _ _ _ _ _ _ e h with h2 | h2 | h2
           · simp at h2
           · exact Or.inr (Or.inr (Or.inl h2))
           · exact Or.inr (Or.inr (Or.inr h2)))
  · simp only [increaseStage]
    repeat' split
    all_goals intro hinv hadd e he
    all_goals first
      | exact absurd hinv (by decide)
      | exact absurd rfl hadd
      | (rcases List.mem_append.mp he with h | h
         · simp only [List.mem_cons, List.not_mem_nil, or_false] at h
           rcases h with rfl | rfl
           · exact Or.inl rfl
           · exact Or.inr (Or.inl rfl)
         · rcases incLoop_ilogs _ _ _ _ _ _ e h with h2 | h2 | h2
           · simp at h2
           · exact Or.inr (Or.inr (Or.inl h2))
           · exact Or.inr (Or.inr (Or.inr h2)))

/-- Witness for C8: an invoked reduction fallback with no candidates at all
appends no move and logs an exhaustion explanation; an invoked reduction
fallback that appends one move (below the 90% threshold) logs only
header/per-move/achievement entries. -/
theorem fallback_trigger_witness :
    (reduceStage [⟨"X", 100, 100, 999, true, false⟩] [] (fun _ => 0) 0 5 "조립1"
        [] [] 100).invoked = true ∧
    (∃ e ∈ (reduceStage [⟨"X", 100, 100, 999, true, false⟩] [] (fun _ => 0) 0 5 "조립1"
        [] [] 100).logs,
      e = FKind.noMoreMovable ∨ e = FKind.noDates ∨ e = FKind.redFailCands ∨
      e = FKind.redFailNoDates) ∧
    ∀ e ∈ (reduceStage [⟨"X", 100, 100, 999, true, false⟩] [] (fun _ => 3300) 95 100 "조립1"
        [((100, "조립2"), 100)] [] 1000).logs,
      e = FKind.redHeader ∨ e = FKind.datesInfo ∨ e = FKind.redMoveOk ∨
      e = FKind.achieved := by
  have h := fallback_trigger_and_exhaustion [⟨"X", 100, 100, 999, true, false⟩] []
      (fun _ => 0) 0 5 "조립1" [] [] 100
  have h' := fallback_trigger_and_exhaustion [⟨"X", 100, 100, 999, true, false⟩] []
      (fun _ => 3300) 95 100 "조립1" [((100, "조립2"), 100)] [] 1000
  exact ⟨(h.1).mpr ⟨by decide, by decide⟩,
    h.2.2.1 ((h.1).mpr ⟨by decide, by decide⟩) (by decide),
    h'.2.2.2.2.1 ((h'.1).mpr ⟨by decide, by decide⟩) (by decide)⟩
